import Mathlib

/-!
TaskManagement_MVP: the task routes (`routes/tasks.js`) over the `Task` model.

A shallow embedding of the Express handlers of `routes/tasks.js` and of the
Mongoose schema of `models/Task.js`.

* The collection is a list of documents (`Store`), in storage order.
* Object ids (`_id`, `user`, `req.params.id`, `req.user.id`) are well-formed
  ObjectIds, modelled as natural numbers.
* Dates are millisecond time values (`Int`); `new Date(s)` may be an Invalid Date.
* The numbers that `parseInt` returns are doubles (`JsNum`): an integer of
  `2^53` or more is rounded to the nearest double, and the arithmetic of the
  list handler rounds likewise.
* A handler ends either with a response (`Except.ok`) or with `next(err)`
  (`Except.error`).
* What the database and the JavaScript runtime do (regular expressions, date
  parsing, field projection, the clock and id generation) is taken as a
  parameter wherever the handlers do not fix it.
-/

namespace TaskManagement

/-! ## models/Task.js -/

/-- A persisted document of the `Task` model (`taskSchema`). -/
structure Task where
  _id : Nat
  user : Nat
  title : String
  description : Option String
  status : String
  priority : String
  dueDate : Option Int
  categories : List String
  createdAt : Int
  deriving DecidableEq, Repr

/-- The collection behind the `Task` model. -/
abbrev Store := List Task

/-- The `enum` of `taskSchema.status`. -/
def statusEnum : List String := ["To Do", "In Progress", "Done"]

/-- The `enum` of `taskSchema.priority`. -/
def priorityEnum : List String := ["Low", "Medium", "High"]

/-! ## Errors handed to `next` -/

/-- What a handler passes to `next`: an `AppError(message, statusCode)` it built
itself, or an error thrown by the model layer (cast or validation failure) and
forwarded by the `catch` block. -/
inductive Err where
  | app (message : String) (statusCode : Nat)
  | thrown
  deriving DecidableEq, Repr

/-! ## JavaScript helpers -/

/-- The white space and line terminator characters that `parseInt` skips. -/
def isStrWhiteSpaceChar (c : Char) : Bool :=
  c.toNat == 0x09 || c.toNat == 0x0A || c.toNat == 0x0B || c.toNat == 0x0C ||
  c.toNat == 0x0D || c.toNat == 0x20 || c.toNat == 0xA0 || c.toNat == 0x1680 ||
  (0x2000 ≤ c.toNat && c.toNat ≤ 0x200A) || c.toNat == 0x2028 || c.toNat == 0x2029 ||
  c.toNat == 0x202F || c.toNat == 0x205F || c.toNat == 0x3000 || c.toNat == 0xFEFF

/-- The value of a decimal digit. -/
def digitVal (c : Char) : Option Nat :=
  if 48 ≤ c.toNat ∧ c.toNat ≤ 57 then some (c.toNat - 48) else none

/-- The longest prefix of decimal digits, as digit values. -/
def leadingDigits : List Char → List Nat
  | [] => []
  | c :: cs =>
    match digitVal c with
    | some d => d :: leadingDigits cs
    | none => []

/-- The number written by a list of decimal digits. -/
def digitsValue (ds : List Nat) : Nat :=
  ds.foldl (fun acc d => 10 * acc + d) 0

/-- A JavaScript number whose value is an integer, or `NaN`, `Infinity` or
`-Infinity` (`inf true`): the values that `parseInt` returns and that the list
handler computes with. -/
inductive JsNum where
  | nan
  | int (v : Int)
  | inf (negative : Bool)
  deriving DecidableEq, Repr

/-- The first integer above the safe integers, `2^53`: every integer below it
is a double. -/
def twoPow53 : Nat := 9007199254740992

/-- The number of halvings that bring a number below `2^53`, at most `fuel`. -/
def excessBits : Nat → Nat → Nat
  | 0, _ => 0
  | fuel + 1, n => if n < twoPow53 then 0 else excessBits fuel (n / 2) + 1

/-- The double nearest to a natural number, ties to the even significand;
`none` when the number rounds beyond the largest double, to `Infinity`. A
number of `2^53` or more is cut to a significand `q` of 53 bits with exponent
`e`; the rounded `q * 2^e` is a double when it is below `2^1024`, which an
exponent above 971 excludes. -/
def toDouble (n : Nat) : Option Nat :=
  if n < twoPow53 then some n
  else
    let e := excessBits 1100 n
    let q := n / 2 ^ e
    let r := n % 2 ^ e
    let half := 2 ^ (e - 1)
    let q := if half < r ∨ (r = half ∧ q % 2 = 1) then q + 1 else q
    if e < 971 ∨ (e = 971 ∧ q < twoPow53) then some (q * 2 ^ e) else none

/-- The JavaScript number of an integer: the nearest double, or an infinity. -/
def JsNum.ofInt (z : Int) : JsNum :=
  match toDouble z.natAbs with
  | some m => JsNum.int (if z < 0 then - (m : Int) else (m : Int))
  | none => JsNum.inf (decide (z < 0))

/-- The test `isNaN(x)`. -/
def JsNum.isNaN : JsNum → Bool
  | JsNum.nan => true
  | _ => false

/-- The comparison `x < 1`, false for `NaN`. -/
def JsNum.ltOne : JsNum → Bool
  | JsNum.nan => false
  | JsNum.int v => decide (v < 1)
  | JsNum.inf negative => negative

/-- The difference `x - 1`. -/
def JsNum.pred : JsNum → JsNum
  | JsNum.nan => JsNum.nan
  | JsNum.int v => JsNum.ofInt (v - 1)
  | JsNum.inf negative => JsNum.inf negative

/-- The product `x * y`: the nearest double of the exact product; zero times
an infinity is `NaN`. -/
def JsNum.mul : JsNum → JsNum → JsNum
  | JsNum.nan, _ => JsNum.nan
  | _, JsNum.nan => JsNum.nan
  | JsNum.int a, JsNum.int b => JsNum.ofInt (a * b)
  | JsNum.int a, JsNum.inf n => if a = 0 then JsNum.nan else JsNum.inf (xor (decide (a < 0)) n)
  | JsNum.inf n, JsNum.int b => if b = 0 then JsNum.nan else JsNum.inf (xor n (decide (b < 0)))
  | JsNum.inf n, JsNum.inf m => JsNum.inf (xor n m)

/-- The count a number stands for when it is a safe integer that is not
negative. -/
def JsNum.safeNat : JsNum → Option Nat
  | JsNum.int v => if 0 ≤ v ∧ v < (twoPow53 : Int) then some v.toNat else none
  | _ => none

/-- `parseInt(s, 10)` on the characters of `s`. Leading white space is
skipped, one sign is read, then the longest run of decimal digits; whatever
follows the digits is ignored. Without a digit the result is `NaN`, otherwise
the double nearest to the integer written. -/
def parseIntChars (cs : List Char) : JsNum :=
  let trimmed := cs.dropWhile isStrWhiteSpaceChar
  let (neg, rest) :=
    match trimmed with
    | '-' :: r => (true, r)
    | '+' :: r => (false, r)
    | r => (false, r)
  match leadingDigits rest with
  | [] => JsNum.nan
  | ds => JsNum.ofInt (if neg then - (digitsValue ds : Int) else (digitsValue ds : Int))

/-- `parseInt(s, 10)`. -/
def parseInt (s : String) : JsNum :=
  parseIntChars s.toList

/-! ## GET /api/tasks -/

/-- The query string of a list request (`req.query`); an absent parameter is
`none`. -/
structure ListParams where
  status : Option String := none
  sortBy : Option String := none
  category : Option String := none
  priority : Option String := none
  dueBefore : Option String := none
  dueAfter : Option String := none
  page : Option String := none
  limit : Option String := none
  fields : Option String := none
  search : Option String := none
  deriving DecidableEq, Repr

/-- The filter object `query` of the list handler. A date bound is
`some none` when `new Date(..)` gave an Invalid Date. -/
structure Query where
  user : Nat
  status : Option String := none
  categories : Option String := none
  priority : Option String := none
  dueLte : Option (Option Int) := none
  dueGte : Option (Option Int) := none
  search : Option String := none
  deriving DecidableEq, Repr

/-- The value of a query parameter when it is truthy: absent and `''` are
falsy. -/
def truthy (v : Option String) : Option String :=
  match v with
  | some s => if s != "" then some s else none
  | none => none

/-- The part "Build the query" of the list handler: each `if` of the handler
sets its own key of `query` (`$lte` and `$gte` are the two keys of
`query.dueDate`). -/
def buildQuery (parseDate : String → Option Int) (userId : Nat) (q : ListParams) : Query :=
  { user := userId
    status :=
      match truthy q.status with
      | some s => if statusEnum.contains s then some s else none
      | none => none
    categories := truthy q.category
    priority :=
      match truthy q.priority with
      | some p => if priorityEnum.contains p then some p else none
      | none => none
    dueLte :=
      match truthy q.dueBefore with
      | some d => some (parseDate d)
      | none => none
    dueGte :=
      match truthy q.dueAfter with
      | some d => some (parseDate d)
      | none => none
    search := truthy q.search }

/-- The sort object: the field and the direction (`1` ascending, `-1`
descending). -/
inductive SortSpec where
  | createdAtDesc
  | dueDateAsc
  | titleAsc
  | priorityDesc
  deriving DecidableEq, Repr

/-- The part "Build the sort object" of the list handler. -/
def buildSort (sortBy : Option String) : SortSpec :=
  if sortBy = some "dueDate" then SortSpec.dueDateAsc
  else if sortBy = some "title" then SortSpec.titleAsc
  else if sortBy = some "priority" then SortSpec.priorityDesc
  else SortSpec.createdAtDesc

/-- The part "Select fields" of the list handler: `fields.split(',').join(' ')`. -/
def buildSelect (fields : Option String) : String :=
  match truthy fields with
  | some f => " ".intercalate (f.splitOn ",")
  | none => ""

/-- Whether a query can be run: an Invalid Date in it makes the model throw
on casting, and a search pattern that is no regular expression makes the
database fail. -/
def Query.castable (regexI : String → Option (String → Bool)) (query : Query) : Bool :=
  query.dueLte != some none && query.dueGte != some none &&
  (match query.search with
   | some s => (regexI s).isSome
   | none => true)

/-- Whether a document matches the filter. -/
def Query.matches (regexI : String → Option (String → Bool)) (query : Query) (t : Task) :
    Bool :=
  t.user == query.user &&
  (match query.status with
   | some s => t.status == s
   | none => true) &&
  (match query.categories with
   | some c => t.categories.contains c
   | none => true) &&
  (match query.priority with
   | some p => t.priority == p
   | none => true) &&
  (match query.dueLte with
   | some (some b) =>
     (match t.dueDate with
      | some d => decide (d ≤ b)
      | none => false)
   | _ => true) &&
  (match query.dueGte with
   | some (some b) =>
     (match t.dueDate with
      | some d => decide (b ≤ d)
      | none => false)
   | _ => true) &&
  (match query.search with
   | some s =>
     (match regexI s with
      | some test =>
        test t.title ||
        (match t.description with
         | some d => test d
         | none => false)
      | none => false)
   | none => true)

/-- The order of two optional dates in an ascending sort: a missing value
sorts before every date. -/
def dueDateLe : Option Int → Option Int → Bool
  | none, _ => true
  | some _, none => false
  | some a, some b => decide (a ≤ b)

/-- The order `a ≤ b` of two strings as the database compares string fields:
character by character, a proper prefix first. -/
def charsLe : List Char → List Char → Bool
  | [], _ => true
  | _ :: _, [] => false
  | a :: as, b :: bs =>
    if a.toNat < b.toNat then true
    else if b.toNat < a.toNat then false
    else charsLe as bs

/-- The order `a ≤ b` of two string fields. -/
def strLe (a b : String) : Bool :=
  charsLe a.toList b.toList

/-- Whether `a` may stand before `b` under the sort object. -/
def SortSpec.le : SortSpec → Task → Task → Bool
  | SortSpec.createdAtDesc, a, b => decide (b.createdAt ≤ a.createdAt)
  | SortSpec.dueDateAsc, a, b => dueDateLe a.dueDate b.dueDate
  | SortSpec.titleAsc, a, b => strLe a.title b.title
  | SortSpec.priorityDesc, a, b => strLe b.priority a.priority

/-- Insertion of a document into a list sorted by `le`, after its equals. -/
def insertSorted (le : Task → Task → Bool) (t : Task) : List Task → List Task
  | [] => [t]
  | x :: xs => if le x t then x :: insertSorted le t xs else t :: x :: xs

/-- A sort of the documents by the sort object in which equal keys keep their
storage order: one order a database may return. -/
def sortTasks (sort : SortSpec) (ts : List Task) : List Task :=
  ts.foldl (fun acc t => insertSorted sort.le t acc) []

/-- A Mongoose query as the list handler builds it: `Task.find(query)`
followed by the chained `.sort`, `.select`, `.limit` and `.skip`. -/
structure FindQuery where
  filter : Query
  sort : SortSpec
  select : String
  limit : JsNum
  skip : JsNum

/-- What the handlers leave to the runtime and the database. -/
structure Env (D : Type) where
  /-- The time value of `new Date(s)`; `none` is Invalid Date. -/
  parseDate : String → Option Int
  /-- The test `{ $regex: pattern, $options: 'i' }` on a string; `none` for a
  pattern that the database rejects as a regular expression. -/
  regexI : String → Option (String → Bool)
  /-- The projection `.select(s)` applied to one document. -/
  select : String → Task → D
  /-- The order in which the database returns documents under a sort object;
  the order among documents with equal keys is the choice of the database. -/
  sort : SortSpec → List Task → List Task
  /-- The outcome of a query whose `limit` or `skip` is no safe integer (a
  double of `2^53` or more, `NaN` or `Infinity`); `none` when it fails. -/
  beyondSafe : Store → FindQuery → Option (List D)

/-- The documents matching a filter, in storage order. -/
def matching (regexI : String → Option (String → Bool)) (store : Store) (query : Query) :
    List Task :=
  store.filter (Query.matches regexI query)

/-- Execution `.exec()` of a query: filter, sort, skip, limit, project, in
this order whatever the order of the chained calls. A limit of `0` is no
limit. -/
def FindQuery.exec {D : Type} (env : Env D) (store : Store) (fq : FindQuery) :
    Except Err (List D) :=
  if fq.filter.castable env.regexI then
    match fq.skip.safeNat, fq.limit.safeNat with
    | some skip, some limit =>
      let docs := env.sort fq.sort (matching env.regexI store fq.filter)
      let docs := docs.drop skip
      let docs := if limit = 0 then docs else docs.take limit
      Except.ok (docs.map (env.select fq.select))
    | _, _ =>
      match env.beyondSafe store fq with
      | some docs => Except.ok docs
      | none => Except.error Err.thrown
  else Except.error Err.thrown

/-- The call `Task.countDocuments(query)`. -/
def countDocuments (regexI : String → Option (String → Bool)) (store : Store) (query : Query) :
    Except Err Nat :=
  if query.castable regexI then Except.ok (matching regexI store query).length
  else Except.error Err.thrown

/-- The object `pagination` of the list response. -/
structure Pagination where
  currentPage : JsNum
  pageSize : JsNum
  totalPages : Nat
  totalItems : Nat
  deriving DecidableEq, Repr

/-- The body of the list response. -/
structure ListResponse (D : Type) where
  success : Bool
  pagination : Pagination
  data : List D

/-- The ceiling of `a / b` for counts `a` and `b ≥ 1`. -/
def ceilDiv (a b : Nat) : Nat :=
  (a + b - 1) / b

/-- The value of `Math.ceil(a / b)` for a count `a` below `2^53` and a number
`b ≥ 1`: for a safe integer `b` the floating-point quotient rounds up to the
exact ceiling; for a larger `b` the quotient lies below one, and it is zero
for `Infinity`. -/
def ceilQuot (a : Nat) (b : JsNum) : Nat :=
  match b with
  | JsNum.int v =>
    if v < (twoPow53 : Int) then ceilDiv a v.toNat
    else if a = 0 then 0 else 1
  | _ => 0

/-- The constant `pageNumber`: `parseInt(page, 10)` with `page = 1` when the
parameter is absent. -/
def pageNumber (page : Option String) : JsNum :=
  match page with
  | some p => parseInt p
  | none => JsNum.int 1

/-- The constant `limitNumber`: `parseInt(limit, 10)` with `limit = 10` when
the parameter is absent. -/
def limitNumber (limit : Option String) : JsNum :=
  match limit with
  | some l => parseInt l
  | none => JsNum.int 10

/-- The handler `router.get('/')`. -/
def getTasks {D : Type} (env : Env D) (store : Store) (userId : Nat) (q : ListParams) :
    Except Err (ListResponse D) :=
  if (pageNumber q.page).isNaN || (limitNumber q.limit).isNaN ||
      (pageNumber q.page).ltOne || (limitNumber q.limit).ltOne then
    Except.error (Err.app "Invalid pagination parameters" 400)
  else
    let query := buildQuery env.parseDate userId q
    let sort := buildSort q.sortBy
    let select := buildSelect q.fields
    let fq : FindQuery :=
      { filter := query, sort := sort, select := select,
        limit := limitNumber q.limit,
        skip := (pageNumber q.page).pred.mul (limitNumber q.limit) }
    match fq.exec env store with
    | Except.error e => Except.error e
    | Except.ok tasks =>
      match countDocuments env.regexI store query with
      | Except.error e => Except.error e
      | Except.ok totalTasks =>
        Except.ok
          { success := true
            pagination :=
              { currentPage := pageNumber q.page
                pageSize := limitNumber q.limit
                totalPages := ceilQuot totalTasks (limitNumber q.limit)
                totalItems := totalTasks }
            data := tasks }

/-! ## Store operations of the model -/

/-- The body of a create or update request (`req.body`): each path of the
schema is absent (`none`, read as `undefined`) or carries a value of the
type of the path. The same shape serves as the `$set` document of an update. -/
structure TaskBody where
  user : Option Nat := none
  title : Option String := none
  description : Option String := none
  status : Option String := none
  priority : Option String := none
  dueDate : Option Int := none
  categories : Option (List String) := none
  createdAt : Option Int := none
  deriving DecidableEq, Repr

/-- The call `Task.findById(id)`: the first document with that `_id`. -/
def findById (store : Store) (id : Nat) : Option Task :=
  store.find? (fun t => t._id == id)

/-- The validators of the schema on a document about to be saved: `title` is
required (a non-empty string), `status` and `priority` belong to their
`enum`. -/
def validates (t : Task) : Bool :=
  t.title != "" && statusEnum.contains t.status && priorityEnum.contains t.priority

/-- The call `newTask.save()`: validation, then insertion at the end of the
collection. -/
def save (store : Store) (t : Task) : Except Err Task × Store :=
  if validates t then (Except.ok t, store ++ [t]) else (Except.error Err.thrown, store)

/-- The update validators (`runValidators: true`) on the paths an update
document sets. -/
def validatesUpdate (upd : TaskBody) : Bool :=
  (match upd.title with
   | some s => s != ""
   | none => true) &&
  (match upd.status with
   | some s => statusEnum.contains s
   | none => true) &&
  (match upd.priority with
   | some p => priorityEnum.contains p
   | none => true)

/-- The effect of `$set` on one document: a path of the update document whose
value is `undefined` is dropped from the update (as Mongoose does since
version 6), every other path is overwritten. -/
def applySet (upd : TaskBody) (t : Task) : Task :=
  { _id := t._id
    user := upd.user.getD t.user
    title := upd.title.getD t.title
    description :=
      match upd.description with
      | some d => some d
      | none => t.description
    status := upd.status.getD t.status
    priority := upd.priority.getD t.priority
    dueDate :=
      match upd.dueDate with
      | some d => some d
      | none => t.dueDate
    categories := upd.categories.getD t.categories
    createdAt := upd.createdAt.getD t.createdAt }

/-- Replacement of the first document with the given `_id` by its image
under `f`. -/
def updateFirst (id : Nat) (f : Task → Task) : List Task → List Task
  | [] => []
  | t :: ts => if t._id == id then f t :: ts else t :: updateFirst id f ts

/-- The call `Task.findByIdAndUpdate(id, upd, { new: true, runValidators })`:
the updated document, or `null` when no document has that `_id`. -/
def findByIdAndUpdate (store : Store) (id : Nat) (upd : TaskBody) (runValidators : Bool) :
    Except Err (Option Task) × Store :=
  if runValidators && !validatesUpdate upd then (Except.error Err.thrown, store)
  else
    match findById store id with
    | none => (Except.ok none, store)
    | some t => (Except.ok (some (applySet upd t)), updateFirst id (applySet upd) store)

/-- Removal of the first document satisfying `p`, returned with the rest. -/
def removeFirst (p : Task → Bool) : List Task → Option Task × List Task
  | [] => (none, [])
  | t :: ts =>
    if p t then (some t, ts)
    else ((removeFirst p ts).1, t :: (removeFirst p ts).2)

/-- The call `Task.findOneAndDelete({ _id: id, user: userId })`. -/
def findOneAndDelete (store : Store) (id userId : Nat) : Option Task × Store :=
  removeFirst (fun t => t._id == id && t.user == userId) store

/-! ## POST /api/tasks -/

/-- The handler `router.post('/')`. The `_id` of the new document and the
value of `Date.now` for `createdAt` are supplied by the model layer. -/
def postTask (newId : Nat) (now : Int) (store : Store) (userId : Nat) (body : TaskBody) :
    Except Err Task × Store :=
  match body.title with
  | none => (Except.error (Err.app "Title is required" 400), store)
  | some title =>
    if title == "" then (Except.error (Err.app "Title is required" 400), store)
    else
      let newTask : Task :=
        { _id := newId
          user := userId
          title := title
          description := body.description
          status :=
            match body.status with
            | some s => if s != "" then s else "To Do"
            | none => "To Do"
          priority :=
            match body.priority with
            | some p => if p != "" then p else "Medium"
            | none => "Medium"
          dueDate := body.dueDate
          categories :=
            match body.categories with
            | some cs => cs
            | none => []
          createdAt := now }
      save store newTask

/-! ## PUT /api/tasks/:id -/

/-- The first handler registered for `router.put('/:id')`: the update document
holds the six paths read from the body. -/
def putFirst (store : Store) (id userId : Nat) (body : TaskBody) :
    Except Err (Option Task) × Store :=
  match findById store id with
  | none => (Except.error (Err.app "Task not found" 404), store)
  | some task =>
    if task.user != userId then (Except.error (Err.app "User not authorized" 401), store)
    else
      findByIdAndUpdate store id
        { title := body.title, description := body.description, status := body.status,
          dueDate := body.dueDate, categories := body.categories, priority := body.priority }
        true

/-- The second handler registered for `router.put('/:id')`: the update is
`{ $set: req.body }`, without validators. -/
def putSecond (store : Store) (id userId : Nat) (body : TaskBody) :
    Except Err (Option Task) × Store :=
  match findById store id with
  | none => (Except.error (Err.app "Task not found" 404), store)
  | some task =>
    if task.user != userId then (Except.error (Err.app "User not authorized" 401), store)
    else findByIdAndUpdate store id body false

/-- A layer of the router for `PUT /:id`: `none` stands for a handler that
calls `next()` without an error and so passes the request on. -/
abbrev PutLayer := Store → Nat → Nat → TaskBody → Option (Except Err (Option Task) × Store)

/-- The layers of `router.put('/:id')` in the order of registration. Each
handler ends with `res.json` or `next(err)`, never with a bare `next()`. -/
def putLayers : List PutLayer :=
  [fun store id userId body => some (putFirst store id userId body),
   fun store id userId body => some (putSecond store id userId body)]

/-- The walk of the router through its layers: the first one that does not
pass the request on serves it. -/
def dispatch (layers : List PutLayer) (store : Store) (id userId : Nat) (body : TaskBody) :
    Except Err (Option Task) × Store :=
  match layers with
  | [] => (Except.error (Err.app "Not Found" 404), store)
  | h :: rest =>
    match h store id userId body with
    | some r => r
    | none => dispatch rest store id userId body

/-- The request `PUT /api/tasks/:id` as the router serves it. -/
def putTask (store : Store) (id userId : Nat) (body : TaskBody) :
    Except Err (Option Task) × Store :=
  dispatch putLayers store id userId body

/-! ## DELETE /api/tasks/:id -/

/-- The handler `router.delete('/:id')`. -/
def deleteTask (store : Store) (id userId : Nat) : Except Err Task × Store :=
  match findOneAndDelete store id userId with
  | (none, store') => (Except.error (Err.app "Task not found or user not authorized" 404), store')
  | (some task, store') => (Except.ok task, store')

/-! ## GET /api/tasks/dashboard -/

/-- A document of the result of the `$group` stage. -/
structure Bucket where
  _id : String
  count : Nat
  deriving DecidableEq, Repr

/-- The stage `{ $match: { user } }`. -/
def matchUser (store : Store) (userId : Nat) : List Task :=
  store.filter (fun t => t.user == userId)

/-- The stage `{ $unwind: '$categories' }`: one output document per element of
the array, none for an empty array. An output document is kept as the pair of
the input document and the element. -/
def unwind (docs : List Task) : List (Task × String) :=
  docs.flatMap (fun t => t.categories.map (fun c => (t, c)))

/-- One step of `$group` with `count: { $sum: 1 }`: the bucket of the label
gains one, or a new bucket with count one is opened. -/
def bump (label : String) : List Bucket → List Bucket
  | [] => [{ _id := label, count := 1 }]
  | b :: bs => if b._id == label then { b with count := b.count + 1 } :: bs else b :: bump label bs

/-- The stage `{ $group: { _id: '$categories', count: { $sum: 1 } } }`. -/
def group (docs : List (Task × String)) : List Bucket :=
  docs.foldl (fun acc d => bump d.2 acc) []

/-- The pipeline `Task.aggregate([$match, $unwind, $group])`. -/
def categoryCounts (store : Store) (userId : Nat) : List Bucket :=
  group (unwind (matchUser store userId))

/-- The total count of the buckets with a given label. -/
def countOf (k : String) (bs : List Bucket) : Nat :=
  ((bs.filter (fun b => b._id == k)).map (fun b => b.count)).sum

/-- The body of the dashboard response. -/
structure Dashboard where
  totalTasks : Nat
  todoTasks : Nat
  inProgressTasks : Nat
  doneTasks : Nat
  upcomingTasks : List Task
  categoryCounts : List Bucket
  deriving DecidableEq, Repr

/-- The handler `router.get('/dashboard')`; `now` is the value of `new Date()`
and `now2` the later value of `Date.now()`. -/
def getDashboard {D : Type} (env : Env D) (now now2 : Int) (store : Store) (userId : Nat) :
    Dashboard :=
  { totalTasks := (matchUser store userId).length
    todoTasks := ((matchUser store userId).filter (fun t => t.status == "To Do")).length
    inProgressTasks :=
      ((matchUser store userId).filter (fun t => t.status == "In Progress")).length
    doneTasks := ((matchUser store userId).filter (fun t => t.status == "Done")).length
    upcomingTasks :=
      (env.sort SortSpec.dueDateAsc
        ((matchUser store userId).filter (fun t =>
          t.status != "Done" &&
          (match t.dueDate with
           | some d => decide (now ≤ d) && decide (d ≤ now2 + 7 * 24 * 60 * 60 * 1000)
           | none => false)))).take 5
    categoryCounts := categoryCounts store userId }

/-- An environment for evaluating examples: every date string is invalid, the
regular expression test is plain equality, the projection keeps the whole
document, equal sort keys keep their storage order and a query beyond the safe
integers fails. -/
def plainEnv : Env Task :=
  { parseDate := fun _ => none
    regexI := fun p => some (fun s => p == s)
    select := fun _ t => t
    sort := sortTasks
    beyondSafe := fun _ _ => none }

/-! ## Examples of stores -/

/-- A task of user `1` with the given id, title, priority and creation time. -/
def mkTask (id : Nat) (title priority : String) (createdAt : Int) : Task :=
  { _id := id, user := 1, title := title, description := none, status := "To Do",
    priority := priority, dueDate := none, categories := [], createdAt := createdAt }

/-- Three tasks of user `1`, one per priority, and one task of user `2`. -/
def sampleStore : Store :=
  [mkTask 10 "a" "High" 100, mkTask 11 "b" "Medium" 200, mkTask 12 "c" "Low" 300,
   { mkTask 13 "d" "High" 400 with user := 2, categories := ["x"] }]

/-! ## The sort of the list handler -/

theorem charsLe_total (a b : List Char) : charsLe a b = true ∨ charsLe b a = true := by
  induction a generalizing b with
  | nil => left; cases b <;> rfl
  | cons x xs ih =>
    cases b with
    | nil => right; rfl
    | cons y ys =>
      by_cases h1 : x.toNat < y.toNat
      · left; simp [charsLe, h1]
      · by_cases h2 : y.toNat < x.toNat
        · right; simp [charsLe, h2]
        · rcases ih ys with h | h
          · left; simp [charsLe, h1, h2, h]
          · right; simp [charsLe, h1, h2, h]

theorem charsLe_trans (a b c : List Char) (hab : charsLe a b = true) (hbc : charsLe b c = true) :
    charsLe a c = true := by
  induction a generalizing b c with
  | nil => cases c <;> rfl
  | cons x xs ih =>
    cases b with
    | nil => simp [charsLe] at hab
    | cons y ys =>
      cases c with
      | nil => simp [charsLe] at hbc
      | cons z zs =>
        simp only [charsLe] at hab hbc ⊢
        by_cases h1 : x.toNat < y.toNat
        · by_cases h2 : y.toNat < z.toNat
          · have : x.toNat < z.toNat := by omega
            simp [this]
          · by_cases h3 : z.toNat < y.toNat
            · simp [h2, h3] at hbc
            · have : x.toNat < z.toNat := by omega
              simp [this]
        · by_cases h1b : y.toNat < x.toNat
          · simp [h1, h1b] at hab
          · simp only [h1, h1b, if_false] at hab
            by_cases h2 : y.toNat < z.toNat
            · have : x.toNat < z.toNat := by omega
              simp [this]
            · by_cases h3 : z.toNat < y.toNat
              · simp [h2, h3] at hbc
              · simp only [h2, h3, if_false] at hbc
                have e1 : ¬ x.toNat < z.toNat := by omega
                have e2 : ¬ z.toNat < x.toNat := by omega
                simp only [e1, e2, if_false]
                exact ih ys zs hab hbc

theorem SortSpec.le_total (s : SortSpec) (a b : Task) : s.le a b = true ∨ s.le b a = true := by
  cases s with
  | createdAtDesc =>
    simp only [SortSpec.le, decide_eq_true_eq]
    omega
  | dueDateAsc =>
    simp only [SortSpec.le]
    cases ha : a.dueDate <;> cases hb : b.dueDate <;> simp [dueDateLe]
    omega
  | titleAsc => exact charsLe_total _ _
  | priorityDesc => exact (charsLe_total _ _).symm

theorem SortSpec.le_trans (s : SortSpec) (a b c : Task) (hab : s.le a b = true)
    (hbc : s.le b c = true) : s.le a c = true := by
  cases s with
  | createdAtDesc =>
    simp only [SortSpec.le, decide_eq_true_eq] at hab hbc ⊢
    omega
  | dueDateAsc =>
    simp only [SortSpec.le] at hab hbc ⊢
    cases ha : a.dueDate <;> cases hb : b.dueDate <;> cases hc : c.dueDate <;>
      simp [dueDateLe, ha, hb, hc] at hab hbc ⊢
    omega
  | titleAsc => exact charsLe_trans _ _ _ hab hbc
  | priorityDesc => exact charsLe_trans _ _ _ hbc hab

theorem insertSorted_perm (le : Task → Task → Bool) (t : Task) (l : List Task) :
    (insertSorted le t l).Perm (t :: l) := by
  induction l with
  | nil => exact List.Perm.refl _
  | cons x xs ih =>
    by_cases h : le x t = true
    · simp only [insertSorted, h, if_true]
      exact ((List.Perm.cons x ih).trans (List.Perm.swap t x xs))
    · simp only [insertSorted, h]
      exact List.Perm.refl _

theorem insertSorted_pairwise (s : SortSpec) (t : Task) (l : List Task)
    (hl : l.Pairwise (fun a b => s.le a b = true)) :
    (insertSorted s.le t l).Pairwise (fun a b => s.le a b = true) := by
  induction l with
  | nil => simp [insertSorted]
  | cons x xs ih =>
    rw [List.pairwise_cons] at hl
    by_cases h : s.le x t = true
    · simp only [insertSorted, h, if_true, List.pairwise_cons]
      refine ⟨?_, ih hl.2⟩
      intro y hy
      rcases List.mem_cons.1 ((insertSorted_perm s.le t xs).subset hy) with rfl | hy
      · exact h
      · exact hl.1 y hy
    · have htx : s.le t x = true := (s.le_total t x).resolve_right h
      simp only [insertSorted, h, Bool.false_eq_true, if_false, List.pairwise_cons]
      refine ⟨?_, hl⟩
      intro y hy
      rcases List.mem_cons.1 hy with rfl | hy
      · exact htx
      · exact s.le_trans t x y htx (hl.1 y hy)

theorem sortTasks_fold (s : SortSpec) (ts acc : List Task)
    (hacc : acc.Pairwise (fun a b => s.le a b = true)) :
    (ts.foldl (fun acc t => insertSorted s.le t acc) acc).Pairwise (fun a b => s.le a b = true) ∧
    (ts.foldl (fun acc t => insertSorted s.le t acc) acc).Perm (acc ++ ts) := by
  induction ts generalizing acc with
  | nil => simpa using hacc
  | cons t ts ih =>
    obtain ⟨h1, h2⟩ := ih (insertSorted s.le t acc) (insertSorted_pairwise s t acc hacc)
    refine ⟨h1, h2.trans ?_⟩
    have h3 : (insertSorted s.le t acc ++ ts).Perm ((t :: acc) ++ ts) :=
      List.Perm.append_right ts (insertSorted_perm s.le t acc)
    have h4 : (acc ++ t :: ts).Perm (t :: (acc ++ ts)) := List.perm_middle
    exact h3.trans (by simpa using h4.symm)

/-- The sorted list holds the same documents and is ordered by the sort
object. -/
theorem sortTasks_sorted (s : SortSpec) (ts : List Task) :
    (sortTasks s ts).Pairwise (fun a b => s.le a b = true) ∧ (sortTasks s ts).Perm ts := by
  have h := sortTasks_fold s ts [] List.Pairwise.nil
  exact ⟨h.1, by simpa using h.2⟩

/-! ## JavaScript numbers below `2^53` -/

theorem toDouble_of_lt (n : Nat) (h : n < twoPow53) : toDouble n = some n := by
  simp [toDouble, h]

theorem JsNum.ofInt_natCast (n : Nat) (h : n < twoPow53) :
    JsNum.ofInt (n : Int) = JsNum.int (n : Int) := by
  have h0 : ¬ ((n : Int) < 0) := by omega
  simp [JsNum.ofInt, toDouble_of_lt n h, h0]

theorem JsNum.safeNat_natCast (n : Nat) (h : n < twoPow53) :
    (JsNum.int (n : Int)).safeNat = some n := by
  have h1 : (n : Int) < (twoPow53 : Int) := by exact_mod_cast h
  have h0 : (0 : Int) ≤ (n : Int) := by omega
  simp [JsNum.safeNat, h0, h1]

/-- Above the safe integers `parseInt` rounds: the digits of `2^53 + 1` are
read as `2^53`. -/
theorem parseInt_rounds :
    parseInt "9007199254740993" = JsNum.int 9007199254740992 ∧
    parseInt "9007199254740995" = JsNum.int 9007199254740996 := by
  constructor <;> decide

theorem exec_error {D : Type} (env : Env D) (store : Store) (fq : FindQuery) (e : Err)
    (h : fq.exec env store = Except.error e) : e = Err.thrown := by
  unfold FindQuery.exec at h
  split at h
  · split at h
    · cases h
    · split at h
      · cases h
      · injection h with h; exact h.symm
  · injection h with h; exact h.symm

theorem countDocuments_error (regexI : String → Option (String → Bool)) (store : Store)
    (query : Query) (e : Err) (h : countDocuments regexI store query = Except.error e) :
    e = Err.thrown := by
  unfold countDocuments at h
  split at h
  · cases h
  · injection h with h; exact h.symm

theorem getTasks_passed_guard {D : Type} (env : Env D) (store : Store) (userId : Nat)
    (q : ListParams)
    (hg : ((pageNumber q.page).isNaN || (limitNumber q.limit).isNaN ||
      (pageNumber q.page).ltOne || (limitNumber q.limit).ltOne) = false) :
    getTasks env store userId q ≠ Except.error (Err.app "Invalid pagination parameters" 400) := by
  intro h
  simp only [getTasks, hg, Bool.false_eq_true, if_false] at h
  split at h
  · next e he =>
    have := exec_error env store _ e he
    subst this
    cases h
  · split at h
    · next e he =>
      have := countDocuments_error _ _ _ e he
      subst this
      cases h
    · cases h

/-! ## The page of a list response -/

theorem ceilDiv_spec (a b : Nat) (hb : 1 ≤ b) :
    a ≤ ceilDiv a b * b ∧ ∀ n, a ≤ n * b → ceilDiv a b ≤ n := by
  unfold ceilDiv
  constructor
  · have h := Nat.div_add_mod (a + b - 1) b
    have h2 := Nat.mod_lt (a + b - 1) (show 0 < b by omega)
    have h3 : b * ((a + b - 1) / b) = (a + b - 1) / b * b := Nat.mul_comm _ _
    omega
  · intro n hn
    have : a + b - 1 < (n + 1) * b := by
      have : (n + 1) * b = n * b + b := by ring
      omega
    have := (Nat.div_lt_iff_lt_mul (show 0 < b by omega)).2 this
    omega

/-- C1: a list request with valid `page` and `limit` (integers at least 1, with
`limit` and the offset `(page-1)*limit` below `2^53`, where JavaScript numbers
are exact) answers, whenever it answers, with at most `limit` documents, which
are the projections of positions `(page-1)*limit .. page*limit - 1` of the
caller's matching tasks in sort order; `totalItems` is the number of matching
tasks of the store and `totalPages` is the least `n` with
`totalItems ≤ n * limit`, that is `ceil(totalItems / limit)`. It does answer
when the date bounds of the filter are valid dates and the search pattern is a
regular expression. The sort order is any order the database returns that
holds the matching tasks, ordered by the sort object; it holds tasks of the
caller only. -/
theorem getTasks_page_slice {D : Type} (env : Env D) (store : Store) (userId : Nat)
    (q : ListParams) (page limit : Nat)
    (hp : pageNumber q.page = JsNum.int (page : Int))
    (hl : limitNumber q.limit = JsNum.int (limit : Int))
    (hp1 : 1 ≤ page) (hl1 : 1 ≤ limit)
    (hlim : limit < twoPow53) (hskip : (page - 1) * limit < twoPow53)
    (hsort : ∀ s ts, (env.sort s ts).Perm ts ∧
      (env.sort s ts).Pairwise (fun a b => s.le a b = true)) :
    ((buildQuery env.parseDate userId q).castable env.regexI = true →
      ∃ r, getTasks env store userId q = Except.ok r) ∧
    ∀ r, getTasks env store userId q = Except.ok r →
      r.data.length ≤ limit ∧
      (∀ i, r.data[i]? =
        if i < limit then
          ((env.sort (buildSort q.sortBy)
            (matching env.regexI store (buildQuery env.parseDate userId q)))[(page - 1) * limit + i]?).map
            (env.select (buildSelect q.fields))
        else none) ∧
      r.pagination.totalItems =
        (store.filter (Query.matches env.regexI (buildQuery env.parseDate userId q))).length ∧
      r.pagination.totalItems ≤ r.pagination.totalPages * limit ∧
      (∀ n, r.pagination.totalItems ≤ n * limit → r.pagination.totalPages ≤ n) ∧
      r.pagination.currentPage = JsNum.int (page : Int) ∧
      r.pagination.pageSize = JsNum.int (limit : Int) ∧
      (env.sort (buildSort q.sortBy)
        (matching env.regexI store (buildQuery env.parseDate userId q))).Perm
          (store.filter (Query.matches env.regexI (buildQuery env.parseDate userId q))) ∧
      (env.sort (buildSort q.sortBy)
        (matching env.regexI store (buildQuery env.parseDate userId q))).Pairwise
          (fun a b => (buildSort q.sortBy).le a b = true) ∧
      ∀ t ∈ env.sort (buildSort q.sortBy)
        (matching env.regexI store (buildQuery env.parseDate userId q)), t.user = userId := by
  have hsorted := hsort (buildSort q.sortBy)
    (matching env.regexI store (buildQuery env.parseDate userId q))
  have howner : ∀ t ∈ env.sort (buildSort q.sortBy)
      (matching env.regexI store (buildQuery env.parseDate userId q)), t.user = userId := by
    intro t ht
    have hm := hsorted.1.subset ht
    simp only [matching, List.mem_filter, Query.matches, Bool.and_eq_true] at hm
    simpa [buildQuery] using hm.2.1.1.1.1.1.1
  have hl0 : ¬ limit = 0 := by omega
  have hpl : page - 1 < twoPow53 :=
    Nat.lt_of_le_of_lt (Nat.le_mul_of_pos_right (page - 1) (show 0 < limit by omega)) hskip
  have hg : ((pageNumber q.page).isNaN || (limitNumber q.limit).isNaN ||
      (pageNumber q.page).ltOne || (limitNumber q.limit).ltOne) = false := by
    have h1 : ¬ ((page : Int) < 1) := by omega
    have h2 : ¬ ((limit : Int) < 1) := by omega
    simp [hp, hl, JsNum.isNaN, JsNum.ltOne, h1, h2]
  have hpred : (JsNum.int (page : Int)).pred = JsNum.int ((page - 1 : Nat) : Int) := by
    have hc : (page : Int) - 1 = ((page - 1 : Nat) : Int) := by omega
    simp only [JsNum.pred, hc]
    exact JsNum.ofInt_natCast (page - 1) hpl
  have hmul : (JsNum.int ((page - 1 : Nat) : Int)).mul (JsNum.int (limit : Int)) =
      JsNum.int (((page - 1) * limit : Nat) : Int) := by
    have hc : ((page - 1 : Nat) : Int) * (limit : Int) = (((page - 1) * limit : Nat) : Int) := by
      push_cast; rfl
    simp only [JsNum.mul, hc]
    exact JsNum.ofInt_natCast ((page - 1) * limit) hskip
  have hs1 := JsNum.safeNat_natCast ((page - 1) * limit) hskip
  have hs2 := JsNum.safeNat_natCast limit hlim
  have hcq : ∀ a, ceilQuot a (JsNum.int (limit : Int)) = ceilDiv a limit := by
    intro a
    have h1 : (limit : Int) < (twoPow53 : Int) := by exact_mod_cast hlim
    simp [ceilQuot, h1]
  cases hc : (buildQuery env.parseDate userId q).castable env.regexI with
  | false =>
    refine ⟨by simp, ?_⟩
    intro r hr
    simp [getTasks, hg, FindQuery.exec, hc] at hr
  | true =>
    have hget : getTasks env store userId q = Except.ok
        { success := true
          pagination :=
            { currentPage := JsNum.int (page : Int)
              pageSize := JsNum.int (limit : Int)
              totalPages :=
                ceilDiv (matching env.regexI store (buildQuery env.parseDate userId q)).length limit
              totalItems := (matching env.regexI store (buildQuery env.parseDate userId q)).length }
          data :=
            (((env.sort (buildSort q.sortBy)
              (matching env.regexI store (buildQuery env.parseDate userId q))).drop
                ((page - 1) * limit)).take limit).map (env.select (buildSelect q.fields)) } := by
      simp only [getTasks, hg, Bool.false_eq_true, if_false]
      simp only [FindQuery.exec, hc, if_true, hp, hl, hpred, hmul, hs1, hs2, hl0, if_false,
        countDocuments, hcq]
    refine ⟨fun _ => ⟨_, hget⟩, ?_⟩
    intro r hr
    rw [hget] at hr
    injection hr with hr
    subst hr
    refine ⟨by simp [List.length_take], ?_, rfl, ?_, ?_, rfl, rfl, hsorted.1, hsorted.2, howner⟩
    · intro i
      by_cases hi : i < limit
      · simp [hi, List.getElem?_take, List.getElem?_drop]
      · simp [hi, List.getElem?_take]
    · exact (ceilDiv_spec _ limit hl1).1
    · exact (ceilDiv_spec _ limit hl1).2

theorem getTasks_page_slice_witness :
    ∃ r, getTasks plainEnv sampleStore 1 { page := some "2", limit := some "1" } = Except.ok r ∧
      r.data.length ≤ 1 ∧
      r.data[0]? = (sortTasks SortSpec.createdAtDesc (matching plainEnv.regexI sampleStore
        (buildQuery plainEnv.parseDate 1 { page := some "2", limit := some "1" })))[1]? ∧
      r.pagination.totalItems = 3 ∧ r.pagination.totalPages = 3 := by
  have h := getTasks_page_slice plainEnv sampleStore 1 { page := some "2", limit := some "1" }
    2 1 (by decide) (by decide) (by decide) (by decide) (by decide) (by decide)
    (fun s ts => ⟨(sortTasks_sorted s ts).2, (sortTasks_sorted s ts).1⟩)
  obtain ⟨r, hr⟩ := h.1 (by decide)
  obtain ⟨h1, h2, h3, h4, h5, -, -, -, -, -⟩ := h.2 r hr
  refine ⟨r, hr, h1, ?_, ?_, ?_⟩
  · have := h2 0
    simpa [plainEnv, buildSort, buildSelect, truthy] using this
  · rw [h3]; decide
  · have h3d : r.pagination.totalItems = 3 := by rw [h3]; decide
    rw [h3d] at h4 h5
    have := h5 3 (by omega)
    omega

/-! ## Validation of the pagination parameters -/

/-- C2, as stated, fails: the page `'1.5'` and the limit `'2abc'` are not
integers, yet the request is served, as page `1` with limit `2`. -/
theorem getTasks_accepts_non_integer :
    pageNumber (some "1.5") = JsNum.int 1 ∧ limitNumber (some "2abc") = JsNum.int 2 ∧
    ∃ r, getTasks plainEnv sampleStore 1 { page := some "1.5", limit := some "2abc" } =
        Except.ok r ∧
      r.pagination = ⟨JsNum.int 1, JsNum.int 2, 2, 3⟩ ∧
      r.data = [mkTask 12 "c" "Low" 300, mkTask 11 "b" "Medium" 200] :=
  ⟨by decide, by decide, _, rfl, rfl, rfl⟩

/-- C2, amended: a list request fails with 400 'Invalid pagination parameters',
whatever the store holds, exactly when `parseInt` of `page` or of `limit` is
`NaN` or less than 1, as for `'abc'`, `''`, `'0'` and `'-3'`; a value that
starts with an integer of at least 1, such as `'1.5'` or `'2abc'`, is read as
that integer; absent parameters are read as 1 and 10 and are not rejected. -/
theorem getTasks_rejects_iff {D : Type} (env : Env D) (store : Store) (userId : Nat)
    (q : ListParams) :
    (getTasks env store userId q = Except.error (Err.app "Invalid pagination parameters" 400) ↔
      (pageNumber q.page = JsNum.nan ∨ (∃ n, pageNumber q.page = JsNum.int n ∧ n < 1) ∨
        pageNumber q.page = JsNum.inf true ∨
        limitNumber q.limit = JsNum.nan ∨ (∃ n, limitNumber q.limit = JsNum.int n ∧ n < 1) ∨
        limitNumber q.limit = JsNum.inf true)) ∧
    ((pageNumber q.page = JsNum.nan ∨ (∃ n, pageNumber q.page = JsNum.int n ∧ n < 1) ∨
        pageNumber q.page = JsNum.inf true ∨
        limitNumber q.limit = JsNum.nan ∨ (∃ n, limitNumber q.limit = JsNum.int n ∧ n < 1) ∨
        limitNumber q.limit = JsNum.inf true) ↔
      ∀ store2 : Store,
        getTasks env store2 userId q = Except.error (Err.app "Invalid pagination parameters" 400)) ∧
    pageNumber (some "abc") = JsNum.nan ∧ pageNumber (some "") = JsNum.nan ∧
    pageNumber (some "0") = JsNum.int 0 ∧ pageNumber (some "-3") = JsNum.int (-3) ∧
    pageNumber (some "1.5") = JsNum.int 1 ∧ limitNumber (some "2abc") = JsNum.int 2 ∧
    pageNumber none = JsNum.int 1 ∧ limitNumber none = JsNum.int 10 ∧
    getTasks env store userId { q with page := none, limit := none } ≠
      Except.error (Err.app "Invalid pagination parameters" 400) := by
  have hbad : ∀ x : JsNum, (x.isNaN || x.ltOne) = true ↔
      (x = JsNum.nan ∨ (∃ n, x = JsNum.int n ∧ n < 1) ∨ x = JsNum.inf true) := by
    intro x
    cases x with
    | nan => simp [JsNum.isNaN]
    | int v => simp [JsNum.isNaN, JsNum.ltOne]
    | inf negative => cases negative <;> simp [JsNum.isNaN, JsNum.ltOne]
  have key : ∀ (st : Store) (q : ListParams),
      (getTasks env st userId q = Except.error (Err.app "Invalid pagination parameters" 400) ↔
      (pageNumber q.page = JsNum.nan ∨ (∃ n, pageNumber q.page = JsNum.int n ∧ n < 1) ∨
        pageNumber q.page = JsNum.inf true ∨
        limitNumber q.limit = JsNum.nan ∨ (∃ n, limitNumber q.limit = JsNum.int n ∧ n < 1) ∨
        limitNumber q.limit = JsNum.inf true)) := by
    intro st q
    have hsplit : (pageNumber q.page = JsNum.nan ∨ (∃ n, pageNumber q.page = JsNum.int n ∧ n < 1) ∨
        pageNumber q.page = JsNum.inf true ∨
        limitNumber q.limit = JsNum.nan ∨ (∃ n, limitNumber q.limit = JsNum.int n ∧ n < 1) ∨
        limitNumber q.limit = JsNum.inf true) ↔
        (((pageNumber q.page).isNaN || (pageNumber q.page).ltOne) = true ∨
          ((limitNumber q.limit).isNaN || (limitNumber q.limit).ltOne) = true) := by
      have hprop : ∀ A B C E F G : Prop,
          (A ∨ B ∨ C ∨ E ∨ F ∨ G) ↔ ((A ∨ B ∨ C) ∨ (E ∨ F ∨ G)) := by
        intros; tauto
      rw [hbad, hbad]
      exact hprop _ _ _ _ _ _
    rw [hsplit]
    cases hg : ((pageNumber q.page).isNaN || (limitNumber q.limit).isNaN ||
      (pageNumber q.page).ltOne || (limitNumber q.limit).ltOne) with
    | true =>
      have hget : getTasks env st userId q =
          Except.error (Err.app "Invalid pagination parameters" 400) := by
        simp only [getTasks, hg, if_true]
      simp only [hget, true_iff]
      simp only [Bool.or_eq_true] at hg ⊢
      tauto
    | false =>
      have hne := getTasks_passed_guard env st userId q hg
      simp only [hne, false_iff]
      simp only [Bool.or_eq_false_iff] at hg
      simp [hg.1.1.1, hg.1.1.2, hg.1.2, hg.2]
  refine ⟨key store q, ?_, by decide, by decide, by decide, by decide, by decide, by decide,
    rfl, rfl, ?_⟩
  · constructor
    · intro h st
      exact (key st q).2 h
    · intro h
      exact (key store q).1 (h store)
  · intro h
    have := (key store { q with page := none, limit := none }).1 h
    simp [pageNumber, limitNumber] at this

/-! ## The order of a list sorted by priority -/

/-- C3 at a failing input: with `sortBy = 'priority'` the three tasks of user
`1` come back in the order Medium, Low, High, so the High task follows the
Medium and the Low task. -/
theorem getTasks_priority_order :
    ∃ r, getTasks plainEnv sampleStore 1 { sortBy := some "priority" } = Except.ok r ∧
      r.data.map (fun t => t.priority) = ["Medium", "Low", "High"] :=
  ⟨_, rfl, rfl⟩

/-! ## Status and priority filters -/

/-- C4: in a list request a `status` outside the enum of the schema, or a
`priority` outside its enum, is ignored: the filter and the whole outcome of
the request are those of the same request without the parameter; a value of
the enum becomes an exact-match condition of the filter. -/
theorem buildQuery_enum_filter {D : Type} (env : Env D) (store : Store) (userId : Nat)
    (q : ListParams) (s p : String) :
    (s ∉ statusEnum →
      buildQuery env.parseDate userId { q with status := some s } =
        buildQuery env.parseDate userId { q with status := none } ∧
      getTasks env store userId { q with status := some s } =
        getTasks env store userId { q with status := none }) ∧
    (p ∉ priorityEnum →
      buildQuery env.parseDate userId { q with priority := some p } =
        buildQuery env.parseDate userId { q with priority := none } ∧
      getTasks env store userId { q with priority := some p } =
        getTasks env store userId { q with priority := none }) ∧
    (s ∈ statusEnum →
      (buildQuery env.parseDate userId { q with status := some s }).status = some s ∧
      ∀ t, Query.matches env.regexI (buildQuery env.parseDate userId { q with status := some s }) t =
        true → t.status = s) ∧
    (p ∈ priorityEnum →
      (buildQuery env.parseDate userId { q with priority := some p }).priority = some p ∧
      ∀ t, Query.matches env.regexI (buildQuery env.parseDate userId { q with priority := some p }) t =
        true → t.priority = p) := by
  have hq1 : ∀ s, s ∉ statusEnum → buildQuery env.parseDate userId { q with status := some s } =
      buildQuery env.parseDate userId { q with status := none } := by
    intro s hs
    by_cases h : s = "" <;> simp [buildQuery, truthy, hs, h]
  have hq2 : ∀ p, p ∉ priorityEnum → buildQuery env.parseDate userId { q with priority := some p } =
      buildQuery env.parseDate userId { q with priority := none } := by
    intro p hp
    by_cases h : p = "" <;> simp [buildQuery, truthy, hp, h]
  refine ⟨fun hs => ⟨hq1 s hs, ?_⟩, fun hp => ⟨hq2 p hp, ?_⟩, ?_, ?_⟩
  · simp only [getTasks, hq1 s hs]
  · simp only [getTasks, hq2 p hp]
  · intro hs
    have hne : ¬ s = "" := by
      simp only [statusEnum, List.mem_cons, List.mem_singleton, List.not_mem_nil, or_false] at hs
      rcases hs with h | h | h <;> subst h <;> decide
    have hst : (buildQuery env.parseDate userId { q with status := some s }).status = some s := by
      simp [buildQuery, truthy, hne, hs]
    refine ⟨hst, ?_⟩
    intro t ht
    simp only [Query.matches, hst, Bool.and_eq_true] at ht
    simpa using ht.1.1.1.1.1.2
  · intro hp
    have hne : ¬ p = "" := by
      simp only [priorityEnum, List.mem_cons, List.mem_singleton, List.not_mem_nil, or_false] at hp
      rcases hp with h | h | h <;> subst h <;> decide
    have hpr : (buildQuery env.parseDate userId { q with priority := some p }).priority =
        some p := by
      simp [buildQuery, truthy, hne, hp]
    refine ⟨hpr, ?_⟩
    intro t ht
    simp only [Query.matches, hpr, Bool.and_eq_true] at ht
    simpa using ht.1.1.1.2

theorem buildQuery_enum_filter_witness :
    (buildQuery plainEnv.parseDate 1 { status := some "Finished" } =
        buildQuery plainEnv.parseDate 1 { status := none } ∧
      getTasks plainEnv sampleStore 1 { status := some "Finished" } =
        getTasks plainEnv sampleStore 1 { status := none }) ∧
    (buildQuery plainEnv.parseDate 1 { priority := some "Urgent" } =
        buildQuery plainEnv.parseDate 1 { priority := none } ∧
      getTasks plainEnv sampleStore 1 { priority := some "Urgent" } =
        getTasks plainEnv sampleStore 1 { priority := none }) ∧
    (buildQuery plainEnv.parseDate 1 { status := some "Done" }).status = some "Done" ∧
    (buildQuery plainEnv.parseDate 1 { priority := some "High" }).priority = some "High" :=
  ⟨(buildQuery_enum_filter plainEnv sampleStore 1 {} "Finished" "Urgent").1 (by decide),
   (buildQuery_enum_filter plainEnv sampleStore 1 {} "Finished" "Urgent").2.1 (by decide),
   ((buildQuery_enum_filter plainEnv sampleStore 1 {} "Done" "High").2.2.1 (by decide)).1,
   ((buildQuery_enum_filter plainEnv sampleStore 1 {} "Done" "High").2.2.2 (by decide)).1⟩

/-! ## The first document satisfying a condition -/

theorem exists_first_split (p : Task → Bool) (l : List Task) (h : ∃ t ∈ l, p t = true) :
    ∃ pre t post, l = pre ++ t :: post ∧ (∀ x ∈ pre, p x = false) ∧ p t = true := by
  induction l with
  | nil => simp at h
  | cons a l ih =>
    cases hpa : p a with
    | true => exact ⟨[], a, l, rfl, by simp, hpa⟩
    | false =>
      have h2 : ∃ t ∈ l, p t = true := by
        obtain ⟨t, ht, hpt⟩ := h
        rcases List.mem_cons.1 ht with rfl | ht
        · rw [hpa] at hpt; cases hpt
        · exact ⟨t, ht, hpt⟩
      obtain ⟨pre, t, post, hl, hpre, hpt⟩ := ih h2
      refine ⟨a :: pre, t, post, by simp [hl], ?_, hpt⟩
      intro x hx
      rcases List.mem_cons.1 hx with rfl | hx
      · exact hpa
      · exact hpre x hx

theorem removeFirst_none (p : Task → Bool) (l : List Task) (h : ∀ t ∈ l, p t = false) :
    removeFirst p l = (none, l) := by
  induction l with
  | nil => rfl
  | cons a l ih =>
    have ha : p a = false := h a (List.mem_cons_self a l)
    have hl := ih (fun t ht => h t (List.mem_cons_of_mem a ht))
    simp [removeFirst, ha, hl]

theorem removeFirst_split (p : Task → Bool) (pre post : List Task) (t : Task)
    (hpre : ∀ x ∈ pre, p x = false) (ht : p t = true) :
    removeFirst p (pre ++ t :: post) = (some t, pre ++ post) := by
  induction pre with
  | nil => simp [removeFirst, ht]
  | cons a pre ih =>
    have ha : p a = false := hpre a (List.mem_cons_self a pre)
    have hl := ih (fun x hx => hpre x (List.mem_cons_of_mem a hx))
    simp [removeFirst, ha, hl]

theorem findById_none (store : Store) (id : Nat) (h : ∀ t ∈ store, t._id ≠ id) :
    findById store id = none := by
  unfold findById
  rw [List.find?_eq_none]
  intro t ht
  simpa using h t ht

theorem findById_split (pre post : List Task) (t : Task) (id : Nat)
    (hpre : ∀ x ∈ pre, x._id ≠ id) (ht : t._id = id) :
    findById (pre ++ t :: post) id = some t := by
  unfold findById
  induction pre with
  | nil => simp [ht]
  | cons a pre ih =>
    have ha : a._id ≠ id := hpre a (List.mem_cons_self a pre)
    have hl := ih (fun x hx => hpre x (List.mem_cons_of_mem a hx))
    simp [List.find?_cons, ha, hl]

theorem updateFirst_split (f : Task → Task) (pre post : List Task) (t : Task) (id : Nat)
    (hpre : ∀ x ∈ pre, x._id ≠ id) (ht : t._id = id) :
    updateFirst id f (pre ++ t :: post) = pre ++ f t :: post := by
  induction pre with
  | nil => simp [updateFirst, ht]
  | cons a pre ih =>
    have ha : a._id ≠ id := hpre a (List.mem_cons_self a pre)
    have hl := ih (fun x hx => hpre x (List.mem_cons_of_mem a hx))
    simp [updateFirst, ha, hl]

theorem exists_id_split (store : Store) (id : Nat) (h : ∃ t ∈ store, t._id = id) :
    ∃ pre t post, store = pre ++ t :: post ∧ (∀ x ∈ pre, x._id ≠ id) ∧ t._id = id := by
  obtain ⟨pre, t, post, hl, hpre, ht⟩ :=
    exists_first_split (fun t => t._id == id) store (by simpa using h)
  exact ⟨pre, t, post, hl, fun x hx => by simpa using hpre x hx, by simpa using ht⟩

theorem putTask_eq_putFirst (store : Store) (id userId : Nat) (body : TaskBody) :
    putTask store id userId body = putFirst store id userId body := rfl

/-! ## DELETE -/

/-- C5: when every task with the given id belongs to another user, or no
task has the id, the delete fails with 404 and the store is as before; when a
task with the id belongs to the caller, the first such task is returned and the
new store is the old one without it, all other tasks in place. -/
theorem deleteTask_owner_only (store : Store) (id userId : Nat) :
    ((∀ t ∈ store, t._id = id → t.user ≠ userId) →
      deleteTask store id userId =
        (Except.error (Err.app "Task not found or user not authorized" 404), store)) ∧
    ((∃ t ∈ store, t._id = id ∧ t.user = userId) →
      ∃ pre t post, store = pre ++ t :: post ∧ t._id = id ∧ t.user = userId ∧
        (∀ x ∈ pre, ¬ (x._id = id ∧ x.user = userId)) ∧
        deleteTask store id userId = (Except.ok t, pre ++ post)) := by
  constructor
  · intro h
    have hr := removeFirst_none (fun t => t._id == id && t.user == userId) store
      (by
        intro t ht
        by_cases hid : t._id = id
        · have := h t ht hid
          simp [hid, this]
        · simp [hid])
    simp [deleteTask, findOneAndDelete, hr]
  · intro h
    obtain ⟨pre, t, post, hl, hpre, ht⟩ :=
      exists_first_split (fun t => t._id == id && t.user == userId) store
        (by
          obtain ⟨t, ht, h1, h2⟩ := h
          exact ⟨t, ht, by simp [h1, h2]⟩)
    have ht2 : t._id = id ∧ t.user = userId := by simpa using ht
    refine ⟨pre, t, post, hl, ht2.1, ht2.2, ?_, ?_⟩
    · intro x hx hc
      have := hpre x hx
      simp [hc.1, hc.2] at this
    · have hr := removeFirst_split _ pre post t hpre ht
      simp [deleteTask, findOneAndDelete, hl, hr]

theorem deleteTask_owner_only_witness :
    deleteTask sampleStore 13 1 =
        (Except.error (Err.app "Task not found or user not authorized" 404), sampleStore) ∧
    ∃ pre t post, sampleStore = pre ++ t :: post ∧ t._id = 11 ∧ t.user = 1 ∧
        (∀ x ∈ pre, ¬ (x._id = 11 ∧ x.user = 1)) ∧
        deleteTask sampleStore 11 1 = (Except.ok t, pre ++ post) :=
  ⟨(deleteTask_owner_only sampleStore 13 1).1 (by decide),
   (deleteTask_owner_only sampleStore 11 1).2 ⟨mkTask 11 "b" "Medium" 200, by decide, rfl, rfl⟩⟩

/-! ## PUT: failures -/

/-- C8: an update of an id that no task has fails with 404, an update of a task
whose stored owner is not the caller fails with 401, and in both cases the
store is as before; this holds for the route and for each of its two
handlers. Whatever the outcome of the route, the tasks of other users are
as before. -/
theorem putTask_failures (store : Store) (id userId : Nat) (body : TaskBody) :
    ((∀ t ∈ store, t._id ≠ id) →
      putTask store id userId body = (Except.error (Err.app "Task not found" 404), store) ∧
      putFirst store id userId body = (Except.error (Err.app "Task not found" 404), store) ∧
      putSecond store id userId body = (Except.error (Err.app "Task not found" 404), store)) ∧
    ((∃ t ∈ store, t._id = id) → (∀ t ∈ store, t._id = id → t.user ≠ userId) →
      putTask store id userId body = (Except.error (Err.app "User not authorized" 401), store) ∧
      putFirst store id userId body = (Except.error (Err.app "User not authorized" 401), store) ∧
      putSecond store id userId body =
        (Except.error (Err.app "User not authorized" 401), store)) ∧
    (putTask store id userId body).2.filter (fun t => t.user != userId) =
      store.filter (fun t => t.user != userId) := by
  refine ⟨?_, ?_, ?_⟩
  · intro h
    have hf := findById_none store id h
    simp [putTask_eq_putFirst, putFirst, putSecond, hf]
  · intro hex hown
    obtain ⟨pre, t, post, hl, hpre, ht⟩ := exists_id_split store id hex
    have hf : findById store id = some t := by rw [hl]; exact findById_split pre post t id hpre ht
    have hu : t.user ≠ userId := hown t (by simp [hl]) ht
    simp [putTask_eq_putFirst, putFirst, putSecond, hf, hu]
  · rw [putTask_eq_putFirst]
    unfold putFirst
    cases hf : findById store id with
    | none => rfl
    | some t =>
      by_cases hu : t.user = userId
      · simp only [hu, bne_self_eq_false, Bool.false_eq_true, if_false, findByIdAndUpdate, hf]
        split
        · rfl
        · have hex : ∃ x ∈ store, x._id = id := by
            unfold findById at hf
            have h1 := List.mem_of_find?_eq_some hf
            have h2 := List.find?_some hf
            exact ⟨t, h1, by simpa using h2⟩
          obtain ⟨pre, t2, post, hl, hpre, ht2⟩ := exists_id_split store id hex
          have hf2 : findById store id = some t2 := by
            rw [hl]; exact findById_split pre post t2 id hpre ht2
          have htt : t2 = t := by rw [hf] at hf2; exact (Option.some.inj hf2).symm
          subst htt
          rw [hl, updateFirst_split _ pre post t2 id hpre ht2]
          simp [List.filter_append, List.filter_cons, applySet, hu]
      · simp [hu]

theorem putTask_failures_witness :
    (putTask sampleStore 99 1 { status := some "Done" } =
        (Except.error (Err.app "Task not found" 404), sampleStore) ∧
      putFirst sampleStore 99 1 { status := some "Done" } =
        (Except.error (Err.app "Task not found" 404), sampleStore) ∧
      putSecond sampleStore 99 1 { status := some "Done" } =
        (Except.error (Err.app "Task not found" 404), sampleStore)) ∧
    (putTask sampleStore 13 1 { status := some "Done" } =
        (Except.error (Err.app "User not authorized" 401), sampleStore) ∧
      putFirst sampleStore 13 1 { status := some "Done" } =
        (Except.error (Err.app "User not authorized" 401), sampleStore) ∧
      putSecond sampleStore 13 1 { status := some "Done" } =
        (Except.error (Err.app "User not authorized" 401), sampleStore)) :=
  ⟨(putTask_failures sampleStore 99 1 { status := some "Done" }).1 (by decide),
   (putTask_failures sampleStore 13 1 { status := some "Done" }).2.1
     ⟨{ mkTask 13 "d" "High" 400 with user := 2, categories := ["x"] }, by decide, rfl⟩
     (by decide)⟩

/-! ## POST -/

/-- C9: a create request without a title, or with the empty title, fails with
400 'Title is required' and the store is as before; a create request with a
non-empty title and no status, priority or categories appends one task with
status 'To Do', priority 'Medium', no categories and the caller as owner. -/
theorem postTask_title_and_defaults (newId : Nat) (now : Int) (store : Store) (userId : Nat)
    (body : TaskBody) :
    ((body.title = none ∨ body.title = some "") →
      postTask newId now store userId body =
        (Except.error (Err.app "Title is required" 400), store)) ∧
    (∀ title, body.title = some title → title ≠ "" → body.status = none →
      body.priority = none → body.categories = none →
      ∃ t, postTask newId now store userId body = (Except.ok t, store ++ [t]) ∧
        t.status = "To Do" ∧ t.priority = "Medium" ∧ t.categories = [] ∧ t.user = userId ∧
        t.title = title ∧ t.description = body.description ∧ t.dueDate = body.dueDate) := by
  constructor
  · rintro (h | h) <;> simp [postTask, h]
  · intro title ht hne hs hp hc
    refine ⟨{ _id := newId, user := userId, title := title, description := body.description,
              status := "To Do", priority := "Medium", dueDate := body.dueDate, categories := [],
              createdAt := now }, ?_, rfl, rfl, rfl, rfl, rfl, rfl, rfl⟩
    simp [postTask, ht, hne, hs, hp, hc, save, validates, statusEnum, priorityEnum]

theorem postTask_title_and_defaults_witness :
    postTask 14 500 sampleStore 1 { title := some "" } =
        (Except.error (Err.app "Title is required" 400), sampleStore) ∧
    ∃ t, postTask 14 500 sampleStore 1 { title := some "A" } = (Except.ok t, sampleStore ++ [t]) ∧
        t.status = "To Do" ∧ t.priority = "Medium" ∧ t.categories = [] ∧ t.user = 1 ∧
        t.title = "A" ∧ t.description = none ∧ t.dueDate = none :=
  ⟨(postTask_title_and_defaults 14 500 sampleStore 1 { title := some "" }).1 (Or.inr rfl),
   (postTask_title_and_defaults 14 500 sampleStore 1 { title := some "A" }).2 "A" rfl
     (by decide) rfl rfl rfl⟩

/-! ## The owner of a task -/

theorem updateFirst_map_owner (id : Nat) (f : Task → Task)
    (hf : ∀ t, (f t)._id = t._id ∧ (f t).user = t.user) (l : List Task) :
    (updateFirst id f l).map (fun t => (t._id, t.user)) = l.map (fun t => (t._id, t.user)) := by
  induction l with
  | nil => rfl
  | cons a l ih =>
    by_cases h : a._id = id
    · have h1 : updateFirst id f (a :: l) = f a :: l := by simp [updateFirst, h]
      rw [h1, List.map_cons, List.map_cons, (hf a).1, (hf a).2]
    · have h1 : updateFirst id f (a :: l) = a :: updateFirst id f l := by simp [updateFirst, h]
      rw [h1, List.map_cons, List.map_cons, ih]

theorem putTask_map_owner (store : Store) (id caller : Nat) (body : TaskBody) :
    (putTask store id caller body).2.map (fun t => (t._id, t.user)) =
      store.map (fun t => (t._id, t.user)) := by
  rw [putTask_eq_putFirst]
  unfold putFirst
  cases hf : findById store id with
  | none => rfl
  | some t =>
    by_cases hu : t.user = caller
    · simp only [hu, bne_self_eq_false, Bool.false_eq_true, if_false, findByIdAndUpdate, hf]
      split
      · rfl
      · apply updateFirst_map_owner
        intro x
        exact ⟨rfl, rfl⟩
    · have hu2 : (t.user != caller) = true := by simpa using hu
      simp only [hu2, if_true]

/-- C6: a task made by the create operation has the creating caller as owner,
and an update request by any caller with any body, also one that carries a
`user` path, leaves the owner of every task of the store as it was; so does any
sequence of update requests. -/
theorem owner_fixed (newId : Nat) (now : Int) (store : Store) (userId : Nat) (body : TaskBody)
    (id caller : Nat) (payload : TaskBody) (later : List (Nat × Nat × TaskBody)) :
    (∀ t store2, postTask newId now store userId body = (Except.ok t, store2) →
      t.user = userId ∧ store2 = store ++ [t]) ∧
    (putTask store id caller payload).2.map (fun t => (t._id, t.user)) =
      store.map (fun t => (t._id, t.user)) ∧
    (later.foldl (fun st r => (putTask st r.1 r.2.1 r.2.2).2) store).map
        (fun t => (t._id, t.user)) =
      store.map (fun t => (t._id, t.user)) := by
  refine ⟨?_, putTask_map_owner store id caller payload, ?_⟩
  · intro t store2 h
    unfold postTask at h
    cases ht : body.title with
    | none => simp [ht] at h
    | some title =>
      by_cases he : title = ""
      · simp [ht, he] at h
      · simp only [ht, he, beq_iff_eq, if_false, save] at h
        split at h
        · simp only [Prod.mk.injEq, Except.ok.injEq] at h
          obtain ⟨h1, h2⟩ := h
          subst h1
          exact ⟨rfl, h2.symm⟩
        · simp at h
  · induction later generalizing store with
    | nil => rfl
    | cons r rest ih =>
      simp only [List.foldl_cons]
      rw [ih, putTask_map_owner]

theorem owner_fixed_witness :
    (∃ t store2, postTask 14 500 sampleStore 1 { title := some "A", user := some 2 } =
        (Except.ok t, store2) ∧ t.user = 1 ∧ store2 = sampleStore ++ [t]) ∧
    (putTask sampleStore 11 1 { user := some 2, title := some "mine" }).2.map
        (fun t => (t._id, t.user)) =
      sampleStore.map (fun t => (t._id, t.user)) :=
  ⟨⟨_, _, rfl,
      (owner_fixed 14 500 sampleStore 1 { title := some "A", user := some 2 } 11 1
        { user := some 2, title := some "mine" } []).1 _ _ rfl⟩,
    (owner_fixed 14 500 sampleStore 1 { title := some "A", user := some 2 } 11 1
      { user := some 2, title := some "mine" } []).2.1⟩

/-- The second handler of `PUT /:id`, which the router never reaches, would
overwrite the owner with the `user` path of the body. -/
theorem putSecond_sets_owner :
    (putSecond sampleStore 11 1 { user := some 2 }).2.map (fun t => (t._id, t.user)) =
      [(10, 1), (11, 2), (12, 1), (13, 2)] := by
  decide

/-! ## PUT: the paths an update changes -/

/-- C7: an update of a task by its owner changes at most the paths present in
the body and no other task: under the route the paths `_id`, `user` and
`createdAt` keep their values, and so does each of the other six paths that
the body lacks; under the second handler every path that the body lacks keeps
its value. With the body `{status: "Done"}` the task gets status 'Done', all
its other paths are as before, and the updated task is returned. -/
theorem putTask_frame (pre post : List Task) (t : Task) (id userId : Nat) (body : TaskBody)
    (hpre : ∀ x ∈ pre, x._id ≠ id) (ht : t._id = id) (hu : t.user = userId) :
    (∃ t2, (putTask (pre ++ t :: post) id userId body).2 = pre ++ t2 :: post ∧
      t2._id = t._id ∧ t2.user = t.user ∧ t2.createdAt = t.createdAt ∧
      (body.title = none → t2.title = t.title) ∧
      (body.description = none → t2.description = t.description) ∧
      (body.status = none → t2.status = t.status) ∧
      (body.priority = none → t2.priority = t.priority) ∧
      (body.dueDate = none → t2.dueDate = t.dueDate) ∧
      (body.categories = none → t2.categories = t.categories)) ∧
    (∃ t2, (putSecond (pre ++ t :: post) id userId body).2 = pre ++ t2 :: post ∧
      t2._id = t._id ∧
      (body.user = none → t2.user = t.user) ∧
      (body.createdAt = none → t2.createdAt = t.createdAt) ∧
      (body.title = none → t2.title = t.title) ∧
      (body.description = none → t2.description = t.description) ∧
      (body.status = none → t2.status = t.status) ∧
      (body.priority = none → t2.priority = t.priority) ∧
      (body.dueDate = none → t2.dueDate = t.dueDate) ∧
      (body.categories = none → t2.categories = t.categories)) ∧
    putTask (pre ++ t :: post) id userId { status := some "Done" } =
      (Except.ok (some { t with status := "Done" }), pre ++ { t with status := "Done" } :: post) ∧
    putSecond (pre ++ t :: post) id userId { status := some "Done" } =
      (Except.ok (some { t with status := "Done" }), pre ++ { t with status := "Done" } :: post) := by
  have hf := findById_split pre post t id hpre ht
  have hup := fun f => updateFirst_split f pre post t id hpre ht
  subst hu
  refine ⟨?_, ?_, ?_, ?_⟩
  · rw [putTask_eq_putFirst]
    simp only [putFirst, hf, bne_self_eq_false, Bool.false_eq_true, if_false,
      findByIdAndUpdate]
    split
    · exact ⟨t, rfl, rfl, rfl, rfl, fun _ => rfl, fun _ => rfl, fun _ => rfl, fun _ => rfl,
        fun _ => rfl, fun _ => rfl⟩
    · refine ⟨_, hup _, rfl, rfl, rfl, ?_, ?_, ?_, ?_, ?_, ?_⟩ <;> intro h <;> simp [applySet, h]
  · simp only [putSecond, hf, bne_self_eq_false, Bool.false_eq_true, if_false,
      findByIdAndUpdate, Bool.false_and]
    refine ⟨_, hup _, rfl, ?_, ?_, ?_, ?_, ?_, ?_, ?_, ?_⟩ <;> intro h <;> simp [applySet, h]
  · rw [putTask_eq_putFirst]
    simp [putFirst, hf, findByIdAndUpdate, validatesUpdate, statusEnum, hup, applySet]
  · simp [putSecond, hf, findByIdAndUpdate, hup, applySet]

theorem putTask_frame_witness :
    putTask sampleStore 11 1 { status := some "Done" } =
      (Except.ok (some { mkTask 11 "b" "Medium" 200 with status := "Done" }),
        [mkTask 10 "a" "High" 100, { mkTask 11 "b" "Medium" 200 with status := "Done" },
         mkTask 12 "c" "Low" 300,
         { mkTask 13 "d" "High" 400 with user := 2, categories := ["x"] }]) :=
  (putTask_frame [mkTask 10 "a" "High" 100]
    [mkTask 12 "c" "Low" 300, { mkTask 13 "d" "High" 400 with user := 2, categories := ["x"] }]
    (mkTask 11 "b" "Medium" 200) 11 1 {} (by decide) rfl rfl).2.2.1

/-! ## The category histogram of the dashboard -/

theorem bump_mem_ids (l x : String) (bs : List Bucket) :
    x ∈ (bump l bs).map (fun b => b._id) ↔ x = l ∨ x ∈ bs.map (fun b => b._id) := by
  induction bs with
  | nil => simp [bump]
  | cons b bs ih =>
    by_cases h : b._id = l
    · have h1 : bump l (b :: bs) = { b with count := b.count + 1 } :: bs := by simp [bump, h]
      rw [h1]
      simp only [List.map_cons, List.mem_cons]
      constructor
      · intro hx; exact Or.inr hx
      · rintro (hx | hx)
        · exact Or.inl (by rw [hx, h])
        · exact hx
    · have h1 : bump l (b :: bs) = b :: bump l bs := by simp [bump, h]
      rw [h1]
      simp only [List.map_cons, List.mem_cons, ih]
      tauto

theorem bump_nodup (l : String) (bs : List Bucket) (hn : (bs.map (fun b => b._id)).Nodup) :
    ((bump l bs).map (fun b => b._id)).Nodup := by
  induction bs with
  | nil => simp [bump]
  | cons b bs ih =>
    simp only [List.map_cons, List.nodup_cons] at hn
    by_cases h : b._id = l
    · have h1 : bump l (b :: bs) = { b with count := b.count + 1 } :: bs := by simp [bump, h]
      rw [h1]
      simp only [List.map_cons, List.nodup_cons]
      exact hn
    · have h1 : bump l (b :: bs) = b :: bump l bs := by simp [bump, h]
      rw [h1]
      simp only [List.map_cons, List.nodup_cons]
      refine ⟨?_, ih hn.2⟩
      intro hm
      rcases (bump_mem_ids l b._id bs).1 hm with hx | hx
      · exact h hx
      · exact hn.1 hx

theorem bump_sum (l : String) (bs : List Bucket) :
    ((bump l bs).map (fun b => b.count)).sum = (bs.map (fun b => b.count)).sum + 1 := by
  induction bs with
  | nil => simp [bump]
  | cons b bs ih =>
    by_cases h : b._id = l
    · have h1 : bump l (b :: bs) = { b with count := b.count + 1 } :: bs := by simp [bump, h]
      rw [h1]
      simp only [List.map_cons, List.sum_cons]
      omega
    · have h1 : bump l (b :: bs) = b :: bump l bs := by simp [bump, h]
      rw [h1]
      simp only [List.map_cons, List.sum_cons, ih]
      omega

theorem bump_countOf (l k : String) (bs : List Bucket) :
    countOf k (bump l bs) = countOf k bs + (if l = k then 1 else 0) := by
  induction bs with
  | nil =>
    by_cases hk : l = k <;> simp [bump, countOf, hk]
  | cons b bs ih =>
    unfold countOf at ih ⊢
    by_cases h : b._id = l
    · have h1 : bump l (b :: bs) = { b with count := b.count + 1 } :: bs := by simp [bump, h]
      rw [h1]
      by_cases hk : l = k
      · have hbk : b._id = k := h.trans hk
        simp only [List.filter_cons, hbk, beq_self_eq_true, if_true, List.map_cons,
          List.sum_cons, hk]
        omega
      · have hbk : ¬ b._id = k := fun hb => hk (h.symm.trans hb)
        simp [List.filter_cons, hbk, hk]
    · have h1 : bump l (b :: bs) = b :: bump l bs := by simp [bump, h]
      rw [h1]
      by_cases hbk : b._id = k
      · simp only [List.filter_cons, hbk, beq_self_eq_true, if_true, List.map_cons,
          List.sum_cons, ih]
        omega
      · have hbk2 : (b._id == k) = false := by simpa using hbk
        simp only [List.filter_cons, hbk2, Bool.false_eq_true, if_false, ih]

theorem countOf_of_mem (bs : List Bucket) (hn : (bs.map (fun b => b._id)).Nodup) (b : Bucket)
    (hb : b ∈ bs) : countOf b._id bs = b.count := by
  induction bs with
  | nil => simp at hb
  | cons a bs ih =>
    simp only [List.map_cons, List.nodup_cons] at hn
    have hz : ∀ k, k ∉ bs.map (fun b => b._id) → countOf k bs = 0 := by
      intro k hk
      unfold countOf
      have : bs.filter (fun b => b._id == k) = [] := by
        rw [List.filter_eq_nil_iff]
        intro x hx hxk
        exact hk (List.mem_map.2 ⟨x, hx, by simpa using hxk⟩)
      rw [this]; rfl
    rcases List.mem_cons.1 hb with rfl | hb
    · have := hz b._id hn.1
      unfold countOf at this ⊢
      simp [List.filter_cons, this]
    · have hne : ¬ a._id = b._id := by
        intro h
        exact hn.1 (h ▸ List.mem_map.2 ⟨b, hb, rfl⟩)
      have hne2 : (a._id == b._id) = false := by simpa using hne
      have := ih hn.2 hb
      unfold countOf at this ⊢
      simp only [List.filter_cons, hne2, Bool.false_eq_true, if_false, this]

theorem group_fold (docs : List (Task × String)) (acc : List Bucket) :
    ((acc.map (fun b => b._id)).Nodup →
      ((docs.foldl (fun acc d => bump d.2 acc) acc).map (fun b => b._id)).Nodup) ∧
    (∀ x, x ∈ (docs.foldl (fun acc d => bump d.2 acc) acc).map (fun b => b._id) ↔
      x ∈ docs.map Prod.snd ∨ x ∈ acc.map (fun b => b._id)) ∧
    ((docs.foldl (fun acc d => bump d.2 acc) acc).map (fun b => b.count)).sum =
      (acc.map (fun b => b.count)).sum + docs.length ∧
    (∀ k, countOf k (docs.foldl (fun acc d => bump d.2 acc) acc) =
      countOf k acc + (docs.map Prod.snd).count k) := by
  induction docs generalizing acc with
  | nil => simp
  | cons d docs ih =>
    obtain ⟨i1, i2, i3, i4⟩ := ih (bump d.2 acc)
    simp only [List.foldl_cons]
    refine ⟨fun hn => i1 (bump_nodup d.2 acc hn), ?_, ?_, ?_⟩
    · intro x
      rw [i2 x, bump_mem_ids]
      simp only [List.map_cons, List.mem_cons]
      tauto
    · rw [i3, bump_sum, List.length_cons]
      omega
    · intro k
      rw [i4 k, bump_countOf, List.map_cons, List.count_cons]
      simp only [beq_iff_eq]
      omega

theorem unwind_labels (ts : List Task) :
    (unwind ts).map Prod.snd = ts.flatMap (fun t => t.categories) := by
  induction ts with
  | nil => rfl
  | cons t ts ih =>
    unfold unwind at ih ⊢
    simp only [List.flatMap_cons, List.map_append, ih, List.map_map]
    congr 1
    simp [Function.comp_def]

theorem flatMap_count (ts : List Task) (k : String) :
    (ts.flatMap (fun t => t.categories)).count k =
      (ts.map (fun t => t.categories.count k)).sum := by
  induction ts with
  | nil => rfl
  | cons t ts ih => simp [List.flatMap_cons, List.count_append, ih]

theorem flatMap_length (ts : List Task) :
    (ts.flatMap (fun t => t.categories)).length = (ts.map (fun t => t.categories.length)).sum := by
  induction ts with
  | nil => rfl
  | cons t ts ih => simp [List.flatMap_cons, ih]

/-- C10: the category histogram of the dashboard has one bucket per distinct
label among the categories of the caller's tasks; the count of a bucket is the
number of occurrences of its label in the categories of the caller's tasks;
and the counts add up to the number of (task, category) pairs of the caller,
each task counting once per element of its categories. Tasks of other users
count nowhere. -/
theorem categoryCounts_histogram {D : Type} (env : Env D) (store : Store) (userId : Nat) :
    ((categoryCounts store userId).map (fun b => b._id)).Nodup ∧
    (∀ label, label ∈ (categoryCounts store userId).map (fun b => b._id) ↔
      ∃ t ∈ store, t.user = userId ∧ label ∈ t.categories) ∧
    (∀ b ∈ categoryCounts store userId,
      b.count = ((store.filter (fun t => t.user == userId)).map
        (fun t => t.categories.count b._id)).sum) ∧
    ((categoryCounts store userId).map (fun b => b.count)).sum =
      ((store.filter (fun t => t.user == userId)).map (fun t => t.categories.length)).sum ∧
    (∀ now now2, (getDashboard env now now2 store userId).categoryCounts =
      categoryCounts store userId) := by
  obtain ⟨g1, g2, g3, g4⟩ := group_fold (unwind (matchUser store userId)) []
  have hn : ((categoryCounts store userId).map (fun b => b._id)).Nodup := g1 (by simp)
  refine ⟨hn, ?_, ?_, ?_, fun _ _ => rfl⟩
  · intro label
    unfold categoryCounts group
    rw [g2 label, unwind_labels]
    simp only [List.map_nil, List.not_mem_nil, or_false, List.mem_flatMap, matchUser,
      List.mem_filter, beq_iff_eq]
    constructor
    · rintro ⟨t, ⟨ht, hu⟩, hl⟩
      exact ⟨t, ht, hu, hl⟩
    · rintro ⟨t, ht, hu, hl⟩
      exact ⟨t, ⟨ht, hu⟩, hl⟩
  · intro b hb
    rw [← countOf_of_mem _ hn b hb]
    unfold categoryCounts group
    rw [g4 b._id, unwind_labels, flatMap_count]
    simp [countOf, matchUser]
  · unfold categoryCounts group
    rw [g3, ← List.length_map (unwind (matchUser store userId)) Prod.snd, unwind_labels,
      flatMap_length]
    simp [matchUser]

end TaskManagement
